import Mathlib

/-!
Verification model of `src/core/services/indexer/clang_indexer.py` (yavide).

The Python module is shallowly embedded: the sqlite `symbol` table becomes a
list of rows plus a commit counter, the clang AST becomes an inductive tree,
and each Python function is translated to a Lean function of the same name.
The external clang parser is an excluded collaborator: its outputs (a parsed
translation unit, a resolved cursor) are passed in as explicit `Option`
arguments, exactly at the points where the Python code consumes them.
-/

/-- One row of the sqlite `symbol` table, whose schema is
`(filename text, usr text, line integer, column integer, type integer,
PRIMARY KEY(filename, usr, line, column))` (clang_indexer.py line 58). -/
structure SymbolRow where
  filename : String
  usr : String
  line : Nat
  column : Nat
  type : Nat
deriving Repr, DecidableEq

/-- The primary-key tuple of a `symbol` row: `(filename, usr, line, column)`. -/
def row_key (r : SymbolRow) : String × String × Nat × Nat :=
  (r.filename, r.usr, r.line, r.column)

/-- State of one sqlite database holding the `symbol` table: the rows the
connection currently sees, plus how many commits have completed.  The
`symbol_type` lookup table is static reference data `(1, function), (2,
variable), (3, user_defined_type), (4, macro)` and carries no per-run state,
so it is not part of the mutable state. -/
structure SymbolDatabase where
  rows : List SymbolRow
  commits : Nat
deriving Repr, DecidableEq

/-- The static content of the `symbol_type` table created by
`create_data_model` (clang_indexer.py lines 59-60). -/
def symbol_types : List (Nat × String) :=
  [(1, "function"), (2, "variable"), (3, "user_defined_type"), (4, "macro")]

namespace SymbolDatabase

/-- `get_all` (line 37): `SELECT * FROM symbol`, a full scan. -/
def get_all (db : SymbolDatabase) : List SymbolRow :=
  db.rows

/-- `get_by_id` (line 41): `SELECT * FROM symbol WHERE usr=?`. -/
def get_by_id (db : SymbolDatabase) (id : String) : List SymbolRow :=
  db.rows.filter (fun r => r.usr == id)

/-- `insert_single` / a raw `INSERT INTO symbol VALUES (?, ?, ?, ?, ?)`
(lines 44-45, and inline at lines 229 and 327-333).  The table's primary key
on `(filename, usr, line, column)` makes sqlite raise `IntegrityError` when
the key tuple is already present; the raw statement does not catch it, so the
result is `Except`: `.error ()` models the raised `sqlite3.IntegrityError`. -/
def insert_single (db : SymbolDatabase) (r : SymbolRow) : Except Unit SymbolDatabase :=
  if row_key r ∈ db.rows.map row_key then
    .error ()
  else
    .ok { db with rows := db.rows ++ [r] }

/-- `flush` (line 47): `commit()` on the connection. -/
def flush (db : SymbolDatabase) : SymbolDatabase :=
  { db with commits := db.commits + 1 }

/-- `delete` (line 50): `DELETE FROM symbol WHERE filename=?`. -/
def delete (db : SymbolDatabase) (filename : String) : SymbolDatabase :=
  { db with rows := db.rows.filter (fun r => ¬ (r.filename == filename)) }

/-- `delete_all` (line 53): `DELETE FROM symbol`. -/
def delete_all (db : SymbolDatabase) : SymbolDatabase :=
  { db with rows := [] }

end SymbolDatabase

/-- The insert statement as executed by the indexing `visitor`
(clang_indexer.py lines 325-337): the raw insert wrapped in
`try ... except sqlite3.IntegrityError: pass`, so a duplicate key tuple is
swallowed and the database is left as it was. -/
def insert_ignoring_duplicate (db : SymbolDatabase) (r : SymbolRow) : SymbolDatabase :=
  match db.insert_single r with
  | .ok db' => db'
  | .error _ => db

/-- `insert_ignoring_duplicate` iterated `n` times with the same row, to state
the N-duplicate-inserts property. -/
def insert_ignoring_duplicate_iter (db : SymbolDatabase) (r : SymbolRow) : Nat → SymbolDatabase
  | 0 => db
  | n + 1 => insert_ignoring_duplicate_iter (insert_ignoring_duplicate db r) r n

/-- One padded chunk produced by `slice_it`: `izip_longest` fills the tuple up
to length `n` with the `fillvalue` `None`, embedded here as `none`. -/
def pad_chunk (c : List α) (n : Nat) : List (Option α) :=
  c.map some ++ List.replicate (n - c.length) none

/-- `slice_it(iterable, n)` (clang_indexer.py lines 15-16):
`itertools.izip_longest(*[iter(iterable)]*n, fillvalue=None)`.  The `n`
references to one shared iterator make `izip_longest` emit consecutive
`n`-tuples of the input, padding the last tuple with `None`; with `n = 0`
`izip_longest()` has no iterables and emits nothing at all. -/
def slice_it : List α → Nat → List (List (Option α))
  | _, 0 => []
  | [], _ + 1 => []
  | a :: l, n + 1 => pad_chunk ((a :: l).take (n + 1)) (n + 1) :: slice_it (l.drop n) (n + 1)
termination_by l _ => l.length
decreasing_by
  simp only [List.length_drop, List.length_cons]
  omega

/-- The chunk size computed at clang_indexer.py line 183:
`how_many_chunks = len(cpp_file_list)/self.cpu_count`.  Both operands are
Python 2 `int`s, so `/` is floor division, which `Nat./` matches. -/
def how_many_chunks (file_count cpu_count : Nat) : Nat :=
  file_count / cpu_count

/-- Modelled from the spec (section 4.3 step 3), for comparison with
`how_many_chunks`: the spec prescribes chunks of size
`ceil(fileCount / cpuCount)`. -/
def spec_chunk_size (file_count cpu_count : Nat) : Nat :=
  (file_count + cpu_count - 1) / cpu_count

/-- Modelled from the spec: the semantic-kind identifiers returned by the
node accessors of the external parser layer (`ASTNodeId.get*Id()` in
`services/parser/ast_node_identifier.py`, which is outside `src/`).  The
indexer only ever compares them for membership in fixed lists, so they are
embedded as an enumeration of the thirteen kinds it names, with `otherId`
standing for every other kind. -/
inductive ASTNodeId where
  | functionId
  | methodId
  | classId
  | structId
  | enumId
  | enumValueId
  | unionId
  | typedefId
  | localVariableId
  | functionParameterId
  | fieldId
  | macroDefinitionId
  | macroInstantiationId
  | otherId
deriving Repr, DecidableEq

/-- Modelled from the spec (section 6): the visitor verdicts
`{Recurse, Continue, Stop}` of the external parser's `traverse`
(`ChildVisitResult` in `services/parser/clang_parser.py`, outside `src/`);
`BREAK` is the spec's `Stop`. -/
inductive ChildVisitResult where
  | BREAK
  | CONTINUE
  | RECURSE
deriving Repr, DecidableEq

/-- The fields of one AST node that the indexer reads: `location.file`
(`none` when the node has no file location), the semantic kind via
`get_ast_node_id`, the referenced declaration's USR when `node.referenced`
is set, the node's own USR, and its line/column. -/
structure ASTNodeData where
  file : Option String
  kind : ASTNodeId
  referencedUsr : Option String
  ownUsr : String
  line : Nat
  column : Nat
deriving Repr, DecidableEq

/-- An AST node with its children: the shape `traverse` walks. -/
inductive ASTNode where
  | node : ASTNodeData → List ASTNode → ASTNode
deriving Repr

/-- The scope predicate of the visitor (clang_indexer.py line 320):
`ast_node.location.file and ast_node.location.file.name == tunit.spelling`.
A node without a file location is out of scope. -/
def in_scope (tunit_spelling : String) (d : ASTNodeData) : Bool :=
  match d.file with
  | some f => f == tunit_spelling
  | none => false

/-- The identifier the visitor records (clang_indexer.py line 322):
`ast_node.referenced.get_usr() if ast_node.referenced else
ast_node.get_usr()`. -/
def recorded_usr (d : ASTNodeData) : String :=
  d.referencedUsr.getD d.ownUsr

/-- The classification implicit in the visitor's branch chain (lines
326-335): the symbol-type id stored for each semantic kind, `none` for kinds
that fall through to `pass`. -/
def symbol_type_of : ASTNodeId → Option Nat
  | .functionId | .methodId => some 1
  | .classId | .structId | .enumId | .enumValueId | .unionId | .typedefId => some 3
  | .localVariableId | .functionParameterId | .fieldId => some 2
  | .macroDefinitionId | .macroInstantiationId => some 4
  | .otherId => none

/-- The `visitor` closure of `index_single_file` (clang_indexer.py lines
319-339).  In-scope nodes are classified by kind and inserted (the insert is
guarded by `except sqlite3.IntegrityError: pass`), then visited with
`RECURSE`; out-of-scope nodes insert nothing and yield `CONTINUE`. -/
def visitor (tunit_spelling : String) (ast_node : ASTNodeData) (db : SymbolDatabase) :
    SymbolDatabase × ChildVisitResult :=
  if in_scope tunit_spelling ast_node then
    let usr := recorded_usr ast_node
    let line := ast_node.line
    let column := ast_node.column
    let db' :=
      if ast_node.kind ∈ [ASTNodeId.functionId, ASTNodeId.methodId] then
        insert_ignoring_duplicate db ⟨tunit_spelling, usr, line, column, 1⟩
      else if ast_node.kind ∈ [ASTNodeId.classId, ASTNodeId.structId, ASTNodeId.enumId,
          ASTNodeId.enumValueId, ASTNodeId.unionId, ASTNodeId.typedefId] then
        insert_ignoring_duplicate db ⟨tunit_spelling, usr, line, column, 3⟩
      else if ast_node.kind ∈ [ASTNodeId.localVariableId, ASTNodeId.functionParameterId,
          ASTNodeId.fieldId] then
        insert_ignoring_duplicate db ⟨tunit_spelling, usr, line, column, 2⟩
      else if ast_node.kind ∈ [ASTNodeId.macroDefinitionId, ASTNodeId.macroInstantiationId] then
        insert_ignoring_duplicate db ⟨tunit_spelling, usr, line, column, 4⟩
      else db
    (db', ChildVisitResult.RECURSE)
  else
    (db, ChildVisitResult.CONTINUE)

/-- Modelled from the spec (section 6): `traverse(root_node, context,
visitor)` of the external parser is clang's depth-first child visitation.
The visitor runs on each child of the current node in order; `RECURSE`
descends into that child's children with the same visitor, `CONTINUE` skips
to the next sibling, and `BREAK` ends the whole traversal.  The boolean is
`false` exactly when a `BREAK` ended the traversal early (the indexer's
visitor never returns it). -/
def traverse_forest (tunit_spelling : String) :
    SymbolDatabase → List ASTNode → SymbolDatabase × Bool
  | db, [] => (db, true)
  | db, ASTNode.node d children :: rest =>
    match visitor tunit_spelling d db with
    | (db', ChildVisitResult.RECURSE) =>
      match traverse_forest tunit_spelling db' children with
      | (db'', true) => traverse_forest tunit_spelling db'' rest
      | (db'', false) => (db'', false)
    | (db', ChildVisitResult.CONTINUE) => traverse_forest tunit_spelling db' rest
    | (db', ChildVisitResult.BREAK) => (db', false)
termination_by _ l => sizeOf l

/-- All node data of a forest in preorder, to quantify over every node of a
translation unit. -/
def forest_data : List ASTNode → List ASTNodeData
  | [] => []
  | ASTNode.node d children :: rest => d :: (forest_data children ++ forest_data rest)
termination_by l => sizeOf l

/-- The part of a parsed translation unit the indexer consumes: its
`spelling` (the main file's name) and the children of its root cursor. -/
structure TUnit where
  spelling : String
  root_children : List ASTNode

/-- `index_single_file` (clang_indexer.py lines 318-357), abstracted over
the external parser: `tunit` is the result of
`parser.parse(contents_filename, original_filename, compiler_args,
proj_root_directory)`.  A parse failure (`none`) logs and returns with the
store untouched and uncommitted; otherwise `parser.traverse(tunit.cursor,
parser, visitor)` runs and the store is committed. -/
def index_single_file (tunit : Option TUnit) (db : SymbolDatabase) : SymbolDatabase :=
  match tunit with
  | none => db
  | some tu => ((traverse_forest tu.spelling db tu.root_children).1).flush

/-- `__run_on_single_file` (clang_indexer.py lines 89-101).  `args` is
`(proj_root_directory, contents_filename, original_filename,
compiler_args)`; the handler reconnects to the master store and runs
`index_single_file` only when `contents_filename == original_filename`,
then fires the callback with `(id, args)` whenever one is registered.
`tunit` abstracts the parse result `index_single_file` would consume.  The
second component is the list of callback invocations. -/
def run_on_single_file (tunit : Option TUnit) (has_callback : Bool) (id : Nat)
    (args : List String) (db : SymbolDatabase) :
    SymbolDatabase × List (Nat × List String) :=
  let contents_filename := args.getD 1 ""
  let original_filename := args.getD 2 ""
  let db' :=
    if contents_filename == original_filename then index_single_file tunit db else db
  (db', if has_callback then [(id, args)] else [])

/-- `__drop_all` (clang_indexer.py lines 250-253), the handler the
dispatcher's table `self.op` binds to opcode `0x3`: its body is a TODO
comment (`Drop data from all tables`), so it performs no store operation and
only fires the callback. -/
def drop_all (has_callback : Bool) (id : Nat) (args : List String)
    (db : SymbolDatabase) : SymbolDatabase × List (Nat × List String) :=
  (db, if has_callback then [(id, args)] else [])

/-- The inner loop `for row in query_result` of the merge step
(clang_indexer.py lines 228-229): each worker row goes through a raw
`INSERT INTO symbol VALUES (?, ?, ?, ?, ?)` on the master connection with
no `except` around it, so an `IntegrityError` from a duplicate key tuple
propagates out of the loop (`.error ()`). -/
def merge_rows (master : SymbolDatabase) : List SymbolRow → Except Unit SymbolDatabase
  | [] => .ok master
  | r :: rest =>
    match master.insert_single r with
    | .ok db' => merge_rows db' rest
    | .error e => .error e

/-- The merge step of `__run_on_directory` for one worker database
(clang_indexer.py lines 224-233): `SELECT * FROM symbol` on the worker
store, the insert loop `merge_rows`, then `commit()` — which is only
reached when no insert raised. -/
def merge_worker_store (master : SymbolDatabase) (worker_rows : List SymbolRow) :
    Except Unit SymbolDatabase :=
  match merge_rows master worker_rows with
  | .ok merged => .ok merged.flush
  | .error e => .error e

/-- The fields of a resolved cursor that `__find_all_references` reads: its
own USR, the referenced declaration's USR when `cursor.referenced` is set,
and its semantic kind via `get_ast_node_id`. -/
structure Cursor where
  usr : String
  referencedUsr : Option String
  kind : ASTNodeId
deriving Repr, DecidableEq

/-- `__find_all_references` (clang_indexer.py lines 273-303), abstracted
over the external parser: `tunit` is the parse result and `cursor` is
`parser.get_cursor(tunit, line, column)` when a translation unit exists.
Every branch of the kind chain runs the same `SELECT * FROM symbol WHERE
usr=?`; a kind outside the four groups leaves `query_result = None`.  The
body runs only `SELECT`s, so the database state passes through to the
second component unchanged. -/
def find_all_references (tunit : Option TUnit) (cursor : Option Cursor)
    (db : SymbolDatabase) : List (String × String × Nat × Nat) × SymbolDatabase :=
  match tunit with
  | none => ([], db)
  | some _ =>
    match cursor with
    | none => ([], db)
    | some c =>
      let usr := c.referencedUsr.getD c.usr
      let query_result : Option (List SymbolRow) :=
        if c.kind ∈ [ASTNodeId.functionId, ASTNodeId.methodId] then
          some (db.get_by_id usr)
        else if c.kind ∈ [ASTNodeId.classId, ASTNodeId.structId, ASTNodeId.enumId,
            ASTNodeId.enumValueId, ASTNodeId.unionId, ASTNodeId.typedefId] then
          some (db.get_by_id usr)
        else if c.kind ∈ [ASTNodeId.localVariableId, ASTNodeId.functionParameterId,
            ASTNodeId.fieldId] then
          some (db.get_by_id usr)
        else if c.kind ∈ [ASTNodeId.macroDefinitionId, ASTNodeId.macroInstantiationId] then
          some (db.get_by_id usr)
        else none
      match query_result with
      | some rows => (rows.map fun r => (r.filename, r.usr, r.line, r.column), db)
      | none => ([], db)

/-! Helper lemmas shared by the claim theorems. -/

/-- Depadding a chunk recovers the underlying elements: `filterMap id`
drops exactly the `none` fill values. -/
theorem pad_chunk_filterMap (c : List α) (n : Nat) :
    (pad_chunk c n).filterMap id = c := by
  simp [pad_chunk, List.filterMap_map, Function.comp_def, List.filterMap_some]

/-- Unfolding lemma: slicing a non-empty list with a positive chunk size
emits one padded chunk and recurses past it. -/
theorem slice_it_cons (a : α) (l : List α) (n : Nat) :
    slice_it (a :: l) (n + 1)
      = pad_chunk ((a :: l).take (n + 1)) (n + 1) :: slice_it (l.drop n) (n + 1) := by
  rw [slice_it]

/-- C1: the spec says the orchestrator partitions the discovered file list
into chunks of size `ceil(fileCount / cpuCount)`.  The code computes
`how_many_chunks = len(cpp_file_list)/self.cpu_count` with Python 2 floor
division and passes it to `slice_it` as the chunk size.  Evaluated at the
failing input (1 discovered file, 2 CPUs) the floor is 0 and `slice_it`
emits no chunk at all, so the file is assigned to no worker, while the
spec's `ceil` size 1 would yield the single chunk `[a.cpp]`; at 5 files and
2 CPUs the code emits three chunks of size 2 where the spec prescribes two
chunks of size 3. -/
theorem how_many_chunks_floor_division_drops_files :
    how_many_chunks 1 2 = 0 ∧
    slice_it ["a.cpp"] (how_many_chunks 1 2) = [] ∧
    spec_chunk_size 1 2 = 1 ∧
    slice_it ["a.cpp"] (spec_chunk_size 1 2) = [[some "a.cpp"]] ∧
    how_many_chunks 5 2 = 2 ∧
    slice_it ["a.cpp", "b.cpp", "c.cpp", "d.cpp", "e.cpp"] (how_many_chunks 5 2) =
      [[some "a.cpp", some "b.cpp"], [some "c.cpp", some "d.cpp"],
        [some "e.cpp", none]] ∧
    spec_chunk_size 5 2 = 3 ∧
    slice_it ["a.cpp", "b.cpp", "c.cpp", "d.cpp", "e.cpp"] (spec_chunk_size 5 2) =
      [[some "a.cpp", some "b.cpp", some "c.cpp"],
        [some "d.cpp", some "e.cpp", none]] := by
  refine ⟨rfl, ?_, rfl, ?_, rfl, ?_, rfl, ?_⟩ <;>
    simp [slice_it, how_many_chunks, spec_chunk_size, pad_chunk]

/-- C3: the claim says dispatching drop-all on a populated store followed by
a full scan yields an empty sequence.  The dispatcher binds opcode `0x3` to
`__drop_all`, which is a TODO stub: it fires the callback and performs no
deletion, so the scan still returns the populated rows.  The store primitive
`delete_all` the stub was meant to call does produce an empty scan. -/
theorem drop_all_stub_leaves_store_populated :
    (drop_all true 3 [] ⟨[⟨"a.cpp", "c:@F@f#", 1, 5, 1⟩], 0⟩).1.get_all
      = [⟨"a.cpp", "c:@F@f#", 1, 5, 1⟩] ∧
    (drop_all true 3 [] ⟨[⟨"a.cpp", "c:@F@f#", 1, 5, 1⟩], 0⟩).2 = [(3, [])] ∧
    (SymbolDatabase.delete_all ⟨[⟨"a.cpp", "c:@F@f#", 1, 5, 1⟩], 0⟩).get_all = [] :=
  ⟨rfl, rfl, rfl⟩

/-- C8: when the external parser produces no translation unit
(`parser.parse` returns `None`), `index_single_file` logs and returns
before any insert or commit, so the store state is exactly what it was. -/
theorem index_single_file_parse_failure_frame (tunit : Option TUnit)
    (db : SymbolDatabase) (h : tunit = none) :
    index_single_file tunit db = db := by
  subst h
  rfl

/-- Witness for C8 at a concrete populated store. -/
theorem index_single_file_parse_failure_frame_witness :
    index_single_file none ⟨[⟨"a.cpp", "c:@F@f#", 1, 5, 1⟩], 4⟩
      = ⟨[⟨"a.cpp", "c:@F@f#", 1, 5, 1⟩], 4⟩ :=
  index_single_file_parse_failure_frame none ⟨[⟨"a.cpp", "c:@F@f#", 1, 5, 1⟩], 4⟩ rfl

/-- C10: `__run_on_single_file` invokes `index_single_file` only when
`contents_filename == original_filename` (`args[1]` and `args[2]`); when
they differ the store is left unchanged, and the registered callback is
still invoked with the operation id and arguments. -/
theorem run_on_single_file_skips_on_distinct_paths (tunit : Option TUnit)
    (has_callback : Bool) (id : Nat) (args : List String) (db : SymbolDatabase)
    (h : args.getD 1 "" ≠ args.getD 2 "") :
    (run_on_single_file tunit has_callback id args db).1 = db ∧
    (run_on_single_file tunit has_callback id args db).2
      = if has_callback then [(id, args)] else [] := by
  have hb : (args.getD 1 "" == args.getD 2 "") = false := by
    simpa [beq_eq_false_iff_ne] using h
  unfold run_on_single_file
  simp [hb]
  intro hc
  exact absurd hc (by simpa [List.getD_eq_getElem?_getD] using h)

/-- Witness for C10 at a concrete argument vector whose contents path and
original path differ, with a callback registered. -/
theorem run_on_single_file_skips_on_distinct_paths_witness :
    (run_on_single_file none true 0 ["/proj", "/tmp/contents.cpp", "/proj/a.cpp", ""]
        ⟨[⟨"a.cpp", "c:@F@f#", 1, 5, 1⟩], 0⟩).1
      = ⟨[⟨"a.cpp", "c:@F@f#", 1, 5, 1⟩], 0⟩ ∧
    (run_on_single_file none true 0 ["/proj", "/tmp/contents.cpp", "/proj/a.cpp", ""]
        ⟨[⟨"a.cpp", "c:@F@f#", 1, 5, 1⟩], 0⟩).2
      = [(0, ["/proj", "/tmp/contents.cpp", "/proj/a.cpp", ""])] := by
  have h := run_on_single_file_skips_on_distinct_paths none true 0
    ["/proj", "/tmp/contents.cpp", "/proj/a.cpp", ""]
    ⟨[⟨"a.cpp", "c:@F@f#", 1, 5, 1⟩], 0⟩ (by decide)
  exact ⟨h.1, h.2⟩

/-- Commits are never touched by a raw insert. -/
theorem insert_single_commits (db : SymbolDatabase) (r : SymbolRow)
    (db' : SymbolDatabase) (h : db.insert_single r = .ok db') :
    db'.commits = db.commits := by
  unfold SymbolDatabase.insert_single at h
  split at h
  · cases h
  · cases h
    rfl

/-- C2 counterexample: merging a worker store whose single row is already
present in the master raises the uncaught `IntegrityError` (the merge loop's
insert has no `except` around it), instead of leaving the master unchanged
as the claim states. -/
theorem merge_duplicate_row_fails :
    merge_worker_store ⟨[⟨"a.cpp", "c:@F@f#", 1, 5, 1⟩], 0⟩
        [⟨"a.cpp", "c:@F@f#", 1, 5, 1⟩]
      = Except.error () := by
  rfl

/-- C2 amended: the merge loop of `__run_on_directory` has set-union
semantics only on duplicate-free input: when every worker row's key tuple is
absent from the master (as is the case for disjoint chunks) and the worker's
own keys are distinct (its primary key guarantees that), the merge succeeds
and the master's content becomes the union (concatenation) of the two row
sets, followed by one commit.  When a worker row is already present the
merge does not tolerate it: it raises (see the counterexample), so the merge
is not idempotent. -/
theorem merge_disjoint_is_union (master : SymbolDatabase)
    (worker_rows : List SymbolRow)
    (hdisj : ∀ r ∈ worker_rows, row_key r ∉ master.rows.map row_key)
    (hnd : (worker_rows.map row_key).Nodup) :
    merge_worker_store master worker_rows
      = Except.ok ⟨master.rows ++ worker_rows, master.commits + 1⟩ := by
  suffices h : merge_rows master worker_rows
      = Except.ok ⟨master.rows ++ worker_rows, master.commits⟩ by
    unfold merge_worker_store
    rw [h]
    rfl
  induction worker_rows generalizing master with
  | nil => simp [merge_rows]
  | cons r rest ih =>
    simp only [List.map_cons, List.nodup_cons] at hnd
    have hr : row_key r ∉ master.rows.map row_key := hdisj r (by simp)
    have hstep : master.insert_single r
        = .ok { master with rows := master.rows ++ [r] } := by
      unfold SymbolDatabase.insert_single
      rw [if_neg hr]
    rw [merge_rows, hstep]
    have hdisj' : ∀ x ∈ rest,
        row_key x ∉ ({ master with rows := master.rows ++ [r] } :
          SymbolDatabase).rows.map row_key := by
      intro x hx
      simp only [List.map_append, List.mem_append, List.map_cons, List.map_nil,
        List.mem_singleton]
      rintro (hmem | hkey)
      · exact hdisj x (by simp [hx]) hmem
      · exact hnd.1 (by rw [← hkey]; exact List.mem_map_of_mem row_key hx)
    have hrec := ih { master with rows := master.rows ++ [r] } hdisj' hnd.2
    show merge_rows { master with rows := master.rows ++ [r] } rest
        = Except.ok { rows := master.rows ++ r :: rest, commits := master.commits }
    rw [hrec]
    simp

/-- Witness for the amended C2 statement: merging a one-row worker store
whose key is new to the master appends the row and commits once. -/
theorem merge_disjoint_is_union_witness :
    merge_worker_store ⟨[⟨"a.cpp", "c:@F@f#", 1, 5, 1⟩], 0⟩
        [⟨"b.cpp", "c:@F@g#", 2, 7, 1⟩]
      = Except.ok ⟨[⟨"a.cpp", "c:@F@f#", 1, 5, 1⟩, ⟨"b.cpp", "c:@F@g#", 2, 7, 1⟩], 1⟩ :=
  merge_disjoint_is_union ⟨[⟨"a.cpp", "c:@F@f#", 1, 5, 1⟩], 0⟩
    [⟨"b.cpp", "c:@F@g#", 2, 7, 1⟩] (by decide) (by decide)

/-- Counting a fixed key through an injective-on-this-list projection:
when the projected keys are distinct and the key occurs, exactly one
element projects to it. -/
theorem countP_proj_eq_one {α β : Type} [DecidableEq β] (f : α → β) (b : β) :
    ∀ l : List α, (l.map f).Nodup → b ∈ l.map f →
      l.countP (fun x => decide (f x = b)) = 1 := by
  intro l
  induction l with
  | nil => simp
  | cons x t ih =>
    intro hnd hmem
    simp only [List.map_cons, List.nodup_cons] at hnd
    rcases List.mem_cons.mp hmem with h1 | h2
    · rw [List.countP_cons_of_pos _ _ (by simp [h1])]
      have ht : t.countP (fun x => decide (f x = b)) = 0 := by
        rw [List.countP_eq_zero]
        intro a ha
        simp only [decide_eq_true_eq]
        intro hfa
        exact hnd.1 (h1 ▸ hfa ▸ List.mem_map_of_mem f ha)
      rw [ht]
    · have hne : f x ≠ b := by
        intro hfx
        exact hnd.1 (hfx ▸ h2)
      rw [List.countP_cons_of_neg _ _ (by simp [hne])]
      exact ih hnd.2 h2

/-- A duplicate-guarded insert of an already-present key is the identity. -/
theorem insert_ignoring_duplicate_mem (db : SymbolDatabase) (r : SymbolRow)
    (h : row_key r ∈ db.rows.map row_key) :
    insert_ignoring_duplicate db r = db := by
  unfold insert_ignoring_duplicate SymbolDatabase.insert_single
  rw [if_pos h]

/-- A duplicate-guarded insert of a fresh key appends the row. -/
theorem insert_ignoring_duplicate_not_mem (db : SymbolDatabase) (r : SymbolRow)
    (h : row_key r ∉ db.rows.map row_key) :
    insert_ignoring_duplicate db r = { db with rows := db.rows ++ [r] } := by
  unfold insert_ignoring_duplicate SymbolDatabase.insert_single
  rw [if_neg h]

/-- After a duplicate-guarded insert the key is present. -/
theorem insert_ignoring_duplicate_key_mem (db : SymbolDatabase) (r : SymbolRow) :
    row_key r ∈ (insert_ignoring_duplicate db r).rows.map row_key := by
  by_cases h : row_key r ∈ db.rows.map row_key
  · rw [insert_ignoring_duplicate_mem db r h]
    exact h
  · rw [insert_ignoring_duplicate_not_mem db r h]
    simp

/-- Iterating the guarded insert at least once equals doing it once. -/
theorem insert_ignoring_duplicate_iter_eq (db : SymbolDatabase) (r : SymbolRow) :
    ∀ N, 1 ≤ N →
      insert_ignoring_duplicate_iter db r N = insert_ignoring_duplicate db r := by
  intro N
  induction N generalizing db with
  | zero => omega
  | succ k ih =>
    intro _
    rw [insert_ignoring_duplicate_iter]
    rcases Nat.eq_zero_or_pos k with hk | hk
    · subst hk
      rfl
    · rw [ih (insert_ignoring_duplicate db r) hk]
      exact insert_ignoring_duplicate_mem _ r (insert_ignoring_duplicate_key_mem db r)

/-- C4: the visitor's insert path wraps the raw `INSERT` in
`except sqlite3.IntegrityError: pass`, so inserting a row whose
`(filename, usr, line, column)` key is already present leaves the store
exactly as it was instead of raising to the caller, and after `N ≥ 1`
inserts of the same row into a store whose keys are distinct (the table's
primary-key invariant) the store holds exactly one row with that key. -/
theorem duplicate_inserts_keep_one_row (db : SymbolDatabase) (r : SymbolRow)
    (N : Nat) (hnd : (db.rows.map row_key).Nodup) (hN : 1 ≤ N) :
    (row_key r ∈ db.rows.map row_key → insert_ignoring_duplicate db r = db) ∧
    (insert_ignoring_duplicate_iter db r N).rows.countP
        (fun x => decide (row_key x = row_key r)) = 1 := by
  refine ⟨insert_ignoring_duplicate_mem db r, ?_⟩
  rw [insert_ignoring_duplicate_iter_eq db r N hN]
  by_cases h : row_key r ∈ db.rows.map row_key
  · rw [insert_ignoring_duplicate_mem db r h]
    exact countP_proj_eq_one row_key (row_key r) db.rows hnd h
  · rw [insert_ignoring_duplicate_not_mem db r h]
    have : (db.rows ++ [r]).map row_key = db.rows.map row_key ++ [row_key r] := by
      simp
    apply countP_proj_eq_one row_key (row_key r) (db.rows ++ [r])
    · rw [this]
      simp only [List.nodup_append]
      exact ⟨hnd, List.nodup_singleton _, by simpa using h⟩
    · simp

/-- Witness for C4: three duplicate inserts of one row into the empty store
leave exactly one matching row. -/
theorem duplicate_inserts_keep_one_row_witness :
    (insert_ignoring_duplicate_iter ⟨[], 0⟩ ⟨"a.cpp", "c:@F@f#", 1, 5, 1⟩ 3).rows.countP
        (fun x => decide (row_key x = row_key ⟨"a.cpp", "c:@F@f#", 1, 5, 1⟩)) = 1 :=
  (duplicate_inserts_keep_one_row ⟨[], 0⟩ ⟨"a.cpp", "c:@F@f#", 1, 5, 1⟩ 3
    (by decide) (by decide)).2

/-- Depadded chunks concatenate back to the input list whenever the chunk
size is positive. -/
theorem slice_it_flatten {α : Type} (n : Nat) (h : 1 ≤ n) (l : List α) :
    ((slice_it l n).map (fun c => c.filterMap id)).flatten = l := by
  generalize hk : l.length = k
  induction k using Nat.strong_induction_on generalizing l with
  | _ k ih =>
    obtain ⟨m, rfl⟩ : ∃ m, n = m + 1 := ⟨n - 1, by omega⟩
    match l with
    | [] => simp [slice_it]
    | a :: t =>
      rw [slice_it_cons]
      simp only [List.map_cons, List.flatten_cons, pad_chunk_filterMap]
      rw [ih (t.drop m).length (by simp [← hk]; omega) (t.drop m) rfl]
      rw [List.take_succ_cons]
      rw [List.cons_append]
      rw [List.take_append_drop]

/-- In a list of lists whose per-list occurrence counts of `a` sum to zero,
no list contains `a`. -/
theorem countP_mem_of_count_sum_zero {α : Type} [DecidableEq α] (a : α) :
    ∀ M : List (List α), (M.map (List.count a)).sum = 0 →
      M.countP (fun c => decide (a ∈ c)) = 0 := by
  intro M
  induction M with
  | nil => simp
  | cons c M' ih =>
    intro hsum
    simp only [List.map_cons, List.sum_cons, Nat.add_eq_zero] at hsum
    have hnotmem : a ∉ c := by
      rw [← List.count_eq_zero]
      exact hsum.1
    rw [List.countP_cons_of_neg _ _ (by simp [hnotmem])]
    exact ih hsum.2

/-- In a list of lists whose per-list occurrence counts of `a` sum to one,
exactly one list contains `a`. -/
theorem countP_mem_of_count_sum_one {α : Type} [DecidableEq α] (a : α) :
    ∀ M : List (List α), (M.map (List.count a)).sum = 1 →
      M.countP (fun c => decide (a ∈ c)) = 1 := by
  intro M
  induction M with
  | nil => simp
  | cons c M' ih =>
    intro hsum
    simp only [List.map_cons, List.sum_cons] at hsum
    by_cases hmem : a ∈ c
    · have hc : 1 ≤ c.count a := List.one_le_count_iff.mpr hmem
      have hrest : (M'.map (List.count a)).sum = 0 := by omega
      rw [List.countP_cons_of_pos _ _ (by simp [hmem])]
      rw [countP_mem_of_count_sum_zero a M' hrest]
    · have hc : c.count a = 0 := List.count_eq_zero.mpr hmem
      rw [List.countP_cons_of_neg _ _ (by simp [hmem])]
      exact ih (by omega)

/-- C5: for every file list and every chunk size `n ≥ 1`, the depadded
chunks produced by `slice_it` concatenate to exactly the original list (no
file duplicated or omitted, order preserved), every file's occurrence count
is preserved across the chunks, and when the list has no duplicates each
file appears in exactly one chunk. -/
theorem slice_it_partitions (l : List String) (n : Nat) (h : 1 ≤ n) :
    ((slice_it l n).map (fun c => c.filterMap id)).flatten = l ∧
    (∀ a : String,
      ((slice_it l n).map (fun c => (c.filterMap id).count a)).sum = l.count a) ∧
    (l.Nodup → ∀ a ∈ l,
      (slice_it l n).countP (fun c => decide (a ∈ c.filterMap id)) = 1) := by
  have hflat := slice_it_flatten n h l
  have hcount : ∀ a : String,
      ((slice_it l n).map (fun c => (c.filterMap id).count a)).sum = l.count a := by
    intro a
    have h1 := List.count_flatten a ((slice_it l n).map (fun c => c.filterMap id))
    rw [hflat] at h1
    rw [h1, List.map_map]
    rfl
  refine ⟨hflat, hcount, ?_⟩
  intro hnd a ha
  have h1 : l.count a = 1 := List.count_eq_one_of_mem hnd ha
  have h2 : (slice_it l n).countP (fun c => decide (a ∈ c.filterMap id))
      = ((slice_it l n).map (fun c => c.filterMap id)).countP
          (fun c => decide (a ∈ c)) := by
    rw [List.countP_map]
    rfl
  rw [h2]
  apply countP_mem_of_count_sum_one
  rw [List.map_map]
  rw [← h1]
  rw [← hcount a]
  rfl

/-- Witness for C5 on a concrete three-file list with chunk size two. -/
theorem slice_it_partitions_witness :
    ((slice_it ["a.cpp", "b.cpp", "c.cpp"] 2).map (fun c => c.filterMap id)).flatten
        = ["a.cpp", "b.cpp", "c.cpp"] ∧
    (∀ a : String,
      ((slice_it ["a.cpp", "b.cpp", "c.cpp"] 2).map
          (fun c => (c.filterMap id).count a)).sum
        = (["a.cpp", "b.cpp", "c.cpp"] : List String).count a) ∧
    ((["a.cpp", "b.cpp", "c.cpp"] : List String).Nodup →
      ∀ a ∈ (["a.cpp", "b.cpp", "c.cpp"] : List String),
        (slice_it ["a.cpp", "b.cpp", "c.cpp"] 2).countP
            (fun c => decide (a ∈ c.filterMap id)) = 1) :=
  slice_it_partitions ["a.cpp", "b.cpp", "c.cpp"] 2 (by decide)

/-- Unfolding lemma: one step of the child visitation on a non-empty
forest. -/
theorem traverse_forest_cons (sp : String) (db : SymbolDatabase) (d : ASTNodeData)
    (children rest : List ASTNode) :
    traverse_forest sp db (ASTNode.node d children :: rest) =
      match visitor sp d db with
      | (db', ChildVisitResult.RECURSE) =>
        match traverse_forest sp db' children with
        | (db'', true) => traverse_forest sp db'' rest
        | (db'', false) => (db'', false)
      | (db', ChildVisitResult.CONTINUE) => traverse_forest sp db' rest
      | (db', ChildVisitResult.BREAK) => (db', false) := by
  rw [traverse_forest]

/-- The visitor's branch chain, re-expressed through the kind
classification `symbol_type_of`. -/
theorem visitor_eq (sp : String) (d : ASTNodeData) (db : SymbolDatabase) :
    visitor sp d db =
      if in_scope sp d then
        (match symbol_type_of d.kind with
         | some t =>
           insert_ignoring_duplicate db ⟨sp, recorded_usr d, d.line, d.column, t⟩
         | none => db,
         ChildVisitResult.RECURSE)
      else (db, ChildVisitResult.CONTINUE) := by
  cases hk : d.kind <;> simp [visitor, symbol_type_of, hk]

/-- Rows after a guarded insert come from the store or are the inserted
row. -/
theorem insert_ignoring_duplicate_rows_sub (db : SymbolDatabase) (x : SymbolRow) :
    ∀ r ∈ (insert_ignoring_duplicate db x).rows, r ∈ db.rows ∨ r = x := by
  intro r hr
  by_cases h : row_key x ∈ db.rows.map row_key
  · rw [insert_ignoring_duplicate_mem db x h] at hr
    exact Or.inl hr
  · rw [insert_ignoring_duplicate_not_mem db x h] at hr
    simpa using List.mem_append.mp hr

/-- Rows after one visitor step come from the store, or are the row the
visitor records for an in-scope classified node. -/
theorem visitor_rows (sp : String) (d : ASTNodeData) (db : SymbolDatabase) :
    ∀ r ∈ (visitor sp d db).1.rows,
      r ∈ db.rows ∨ (in_scope sp d = true ∧ ∃ t, symbol_type_of d.kind = some t ∧
        r = ⟨sp, recorded_usr d, d.line, d.column, t⟩) := by
  intro r hr
  rw [visitor_eq] at hr
  by_cases hs : in_scope sp d
  · rw [if_pos hs] at hr
    cases hst : symbol_type_of d.kind with
    | none =>
      simp only [hst] at hr
      exact Or.inl hr
    | some t =>
      simp only [hst] at hr
      rcases insert_ignoring_duplicate_rows_sub db _ r hr with h | h
      · exact Or.inl h
      · exact Or.inr ⟨hs, t, rfl, h⟩
  · rw [if_neg hs] at hr
    exact Or.inl hr

/-- Traversing a concatenated forest traverses the first part and, unless a
`BREAK` stopped it, continues with the second from the resulting state. -/
theorem traverse_forest_append (sp : String) :
    ∀ (db : SymbolDatabase) (xs : List ASTNode), ∀ ys,
      traverse_forest sp db (xs ++ ys) =
        match traverse_forest sp db xs with
        | (db', true) => traverse_forest sp db' ys
        | (db', false) => (db', false) := by
  intro db xs
  induction db, xs using traverse_forest.induct sp with
  | case1 db =>
    intro ys
    simp [traverse_forest]
  | case2 db d children rest db' hvis db2 hch ih1 ih2 =>
    intro ys
    simp only [List.cons_append, traverse_forest_cons, hvis, hch]
    exact ih2 ys
  | case3 db d children rest db' hvis db2 hch ih1 =>
    intro ys
    simp only [List.cons_append, traverse_forest_cons, hvis, hch]
  | case4 db d children rest db' hvis ih =>
    intro ys
    simp only [List.cons_append, traverse_forest_cons, hvis]
    exact ih ys
  | case5 db d children rest db' hvis =>
    intro ys
    simp only [List.cons_append, traverse_forest_cons, hvis]

/-- Provenance of every row present after a traversal: it was already in
the store, or it is the record of some in-scope classified node of the
forest. -/
theorem traverse_forest_rows (sp : String) :
    ∀ (db : SymbolDatabase) (l : List ASTNode),
      ∀ r ∈ (traverse_forest sp db l).1.rows,
        r ∈ db.rows ∨ ∃ d ∈ forest_data l, in_scope sp d = true ∧
          ∃ t, symbol_type_of d.kind = some t ∧
            r = ⟨sp, recorded_usr d, d.line, d.column, t⟩ := by
  intro db l
  induction db, l using traverse_forest.induct sp with
  | case1 db =>
    intro r hr
    rw [traverse_forest] at hr
    exact Or.inl hr
  | case2 db d children rest db' hvis db2 hch ih1 ih2 =>
    intro r hr
    simp only [traverse_forest_cons, hvis, hch] at hr
    have hmem_self : d ∈ forest_data (ASTNode.node d children :: rest) := by
      rw [forest_data]
      simp
    have hmem_head : ∀ d' ∈ forest_data children,
        d' ∈ forest_data (ASTNode.node d children :: rest) := by
      intro d' hd'
      rw [forest_data]
      simp [hd']
    have hmem_rest : ∀ d' ∈ forest_data rest,
        d' ∈ forest_data (ASTNode.node d children :: rest) := by
      intro d' hd'
      rw [forest_data]
      simp [hd']
    rcases ih2 r hr with hmem | ⟨d', hd', rest_prop⟩
    · have hch1 : (traverse_forest sp db' children).1 = db2 := by rw [hch]
      rcases ih1 r (by rw [hch1]; exact hmem) with hmem' | ⟨d', hd', child_prop⟩
      · rcases visitor_rows sp d db r (by rw [hvis]; exact hmem') with hdb | hnode
        · exact Or.inl hdb
        · exact Or.inr ⟨d, hmem_self, hnode.1, hnode.2⟩
      · exact Or.inr ⟨d', hmem_head d' hd', child_prop⟩
    · exact Or.inr ⟨d', hmem_rest d' hd', rest_prop⟩
  | case3 db d children rest db' hvis db2 hch ih1 =>
    intro r hr
    simp only [traverse_forest_cons, hvis, hch] at hr
    have hch1 : (traverse_forest sp db' children).1 = db2 := by rw [hch]
    rcases ih1 r (by rw [hch1]; exact hr) with hmem' | ⟨d', hd', child_prop⟩
    · rcases visitor_rows sp d db r (by rw [hvis]; exact hmem') with hdb | hnode
      · exact Or.inl hdb
      · exact Or.inr ⟨d, by rw [forest_data]; simp, hnode.1, hnode.2⟩
    · exact Or.inr ⟨d', by rw [forest_data]; simp [hd'], child_prop⟩
  | case4 db d children rest db' hvis ih =>
    intro r hr
    simp only [traverse_forest_cons, hvis] at hr
    rcases ih r hr with hmem' | ⟨d', hd', rest_prop⟩
    · rcases visitor_rows sp d db r (by rw [hvis]; exact hmem') with hdb | hnode
      · exact Or.inl hdb
      · exact Or.inr ⟨d, by rw [forest_data]; simp, hnode.1, hnode.2⟩
    · exact Or.inr ⟨d', by rw [forest_data]; simp [hd'], rest_prop⟩
  | case5 db d children rest db' hvis =>
    intro r hr
    simp only [traverse_forest_cons, hvis] at hr
    rcases visitor_rows sp d db r (by rw [hvis]; exact hr) with hdb | hnode
    · exact Or.inl hdb
    · exact Or.inr ⟨d, by rw [forest_data]; simp, hnode.1, hnode.2⟩

/-- The classification only ever produces the four stored type ids. -/
theorem symbol_type_of_range (k : ASTNodeId) (t : Nat)
    (h : symbol_type_of k = some t) : t = 1 ∨ t = 2 ∨ t = 3 ∨ t = 4 := by
  cases k <;> simp [symbol_type_of] at h <;> omega

/-- C6: a node is recorded only if its location file equals the translation
unit's main-file spelling.  First conjunct: an out-of-scope node makes the
visitor answer `CONTINUE`, so the traversal skips its entire subtree in one
step and moves to the next sibling with the store untouched.  Second
conjunct: an in-scope node makes the visitor answer `RECURSE`, so the
traversal descends into its children before the siblings.  Third conjunct:
if every node of the forest that records identifier `S` is out of scope
(e.g. `S` is defined in an included header `B ≠ A` while indexing `A`), no
new row with usr `S` ever appears in the store. -/
theorem include_exclusion :
    (∀ (sp : String) (db : SymbolDatabase) (d : ASTNodeData)
        (children rest : List ASTNode),
      in_scope sp d = false →
        traverse_forest sp db (ASTNode.node d children :: rest)
          = traverse_forest sp db rest) ∧
    (∀ (sp : String) (db : SymbolDatabase) (d : ASTNodeData)
        (children rest : List ASTNode),
      in_scope sp d = true →
        traverse_forest sp db (ASTNode.node d children :: rest)
          = (match traverse_forest sp (visitor sp d db).1 children with
             | (db'', true) => traverse_forest sp db'' rest
             | (db'', false) => (db'', false))) ∧
    (∀ (sp : String) (db : SymbolDatabase) (l : List ASTNode) (S : String),
      (∀ d ∈ forest_data l, recorded_usr d = S → in_scope sp d = false) →
      ∀ r ∈ (traverse_forest sp db l).1.rows, r ∈ db.rows ∨ r.usr ≠ S) := by
  refine ⟨?_, ?_, ?_⟩
  · intro sp db d children rest hs
    have hv : visitor sp d db = (db, ChildVisitResult.CONTINUE) := by
      rw [visitor_eq, if_neg (by simp [hs])]
    simp only [traverse_forest_cons, hv]
  · intro sp db d children rest hs
    have hv : visitor sp d db
        = ((visitor sp d db).1, ChildVisitResult.RECURSE) := by
      rw [visitor_eq, if_pos (by simp [hs])]
    rw [traverse_forest_cons]
    conv =>
      lhs
      rw [hv]
  · intro sp db l S hout r hr
    rcases traverse_forest_rows sp db l r hr with hmem | ⟨d, hd, hsc, t, _, hrow⟩
    · exact Or.inl hmem
    · refine Or.inr ?_
      intro husr
      have : recorded_usr d = S := by
        rw [← husr, hrow]
      have hfalse := hout d hd this
      rw [hsc] at hfalse
      cases hfalse

/-- Witness for C6: indexing `a.cpp` whose tree contains an include-subtree
from header `b.h` defining function `S`; the subtree is pruned in one step
and no row with `S`'s usr is recorded. -/
theorem include_exclusion_witness :
    (traverse_forest "a.cpp" ⟨[], 0⟩
        [ASTNode.node ⟨some "b.h", ASTNodeId.otherId, none, "c:@inc#", 1, 1⟩
          [ASTNode.node ⟨some "b.h", ASTNodeId.functionId, none, "c:@F@S#", 3, 1⟩ []]]
      = traverse_forest "a.cpp" ⟨[], 0⟩ []) ∧
    (∀ r ∈ (traverse_forest "a.cpp" ⟨[], 0⟩
        [ASTNode.node ⟨some "b.h", ASTNodeId.otherId, none, "c:@inc#", 1, 1⟩
          [ASTNode.node ⟨some "b.h", ASTNodeId.functionId, none, "c:@F@S#", 3, 1⟩ []]]).1.rows,
      r ∈ (⟨[], 0⟩ : SymbolDatabase).rows ∨ r.usr ≠ "c:@F@S#") := by
  constructor
  · exact include_exclusion.1 "a.cpp" ⟨[], 0⟩
      ⟨some "b.h", ASTNodeId.otherId, none, "c:@inc#", 1, 1⟩
      [ASTNode.node ⟨some "b.h", ASTNodeId.functionId, none, "c:@F@S#", 3, 1⟩ []] []
      (by decide)
  · exact include_exclusion.2.2 "a.cpp" ⟨[], 0⟩
      [ASTNode.node ⟨some "b.h", ASTNodeId.otherId, none, "c:@inc#", 1, 1⟩
        [ASTNode.node ⟨some "b.h", ASTNodeId.functionId, none, "c:@F@S#", 3, 1⟩ []]]
      "c:@F@S#"
      (by
        simp only [forest_data, List.append_nil, List.nil_append]
        decide)

/-- C7: every row the single-file indexer stores carries one of the four
enumerated type ids, assigned from the node's semantic kind exactly as the
branch chain writes them (function/method types as 1, the user-defined-type
kinds as 3, variable-like kinds as 2, macro kinds as 4), and an in-scope
node of any other kind inserts nothing — its children are still visited in
place. -/
theorem visitor_classification :
    (symbol_type_of ASTNodeId.functionId = some 1 ∧
     symbol_type_of ASTNodeId.methodId = some 1 ∧
     symbol_type_of ASTNodeId.classId = some 3 ∧
     symbol_type_of ASTNodeId.structId = some 3 ∧
     symbol_type_of ASTNodeId.enumId = some 3 ∧
     symbol_type_of ASTNodeId.enumValueId = some 3 ∧
     symbol_type_of ASTNodeId.unionId = some 3 ∧
     symbol_type_of ASTNodeId.typedefId = some 3 ∧
     symbol_type_of ASTNodeId.localVariableId = some 2 ∧
     symbol_type_of ASTNodeId.functionParameterId = some 2 ∧
     symbol_type_of ASTNodeId.fieldId = some 2 ∧
     symbol_type_of ASTNodeId.macroDefinitionId = some 4 ∧
     symbol_type_of ASTNodeId.macroInstantiationId = some 4 ∧
     symbol_type_of ASTNodeId.otherId = none) ∧
    (∀ (sp : String) (d : ASTNodeData) (db : SymbolDatabase),
      in_scope sp d = true →
        (visitor sp d db).1 =
          match symbol_type_of d.kind with
          | some t =>
            insert_ignoring_duplicate db ⟨sp, recorded_usr d, d.line, d.column, t⟩
          | none => db) ∧
    (∀ (sp : String) (db : SymbolDatabase) (d : ASTNodeData)
        (children rest : List ASTNode),
      in_scope sp d = true → symbol_type_of d.kind = none →
        traverse_forest sp db (ASTNode.node d children :: rest)
          = traverse_forest sp db (children ++ rest)) ∧
    (∀ (sp : String) (db : SymbolDatabase) (l : List ASTNode),
      ∀ r ∈ (traverse_forest sp db l).1.rows,
        r ∈ db.rows ∨ r.type = 1 ∨ r.type = 2 ∨ r.type = 3 ∨ r.type = 4) := by
  refine ⟨⟨rfl, rfl, rfl, rfl, rfl, rfl, rfl, rfl, rfl, rfl, rfl, rfl, rfl, rfl⟩,
    ?_, ?_, ?_⟩
  · intro sp d db hs
    rw [visitor_eq, if_pos (by simp [hs])]
  · intro sp db d children rest hs hnone
    have hv : visitor sp d db = (db, ChildVisitResult.RECURSE) := by
      rw [visitor_eq, if_pos (by simp [hs]), hnone]
    simp only [traverse_forest_cons, hv]
    rw [traverse_forest_append sp db children rest]
  · intro sp db l r hr
    rcases traverse_forest_rows sp db l r hr with hmem | ⟨d, _, _, t, ht, hrow⟩
    · exact Or.inl hmem
    · refine Or.inr ?_
      have := symbol_type_of_range d.kind t ht
      rw [hrow]
      exact this

/-- Witness for C7: an in-scope function node stores the row with type 1;
an in-scope node of an unclassified kind stores nothing and its (empty)
child list is traversed in place. -/
theorem visitor_classification_witness :
    (visitor "a.cpp" ⟨some "a.cpp", ASTNodeId.functionId, none, "c:@F@f#", 1, 5⟩
        ⟨[], 0⟩).1
      = insert_ignoring_duplicate ⟨[], 0⟩ ⟨"a.cpp", "c:@F@f#", 1, 5, 1⟩ ∧
    traverse_forest "a.cpp" ⟨[], 0⟩
        [ASTNode.node ⟨some "a.cpp", ASTNodeId.otherId, none, "c:@x#", 2, 1⟩ []]
      = traverse_forest "a.cpp" ⟨[], 0⟩ ([] ++ []) := by
  constructor
  · exact visitor_classification.2.1 "a.cpp"
      ⟨some "a.cpp", ASTNodeId.functionId, none, "c:@F@f#", 1, 5⟩ ⟨[], 0⟩ (by decide)
  · exact visitor_classification.2.2.1 "a.cpp" ⟨[], 0⟩
      ⟨some "a.cpp", ASTNodeId.otherId, none, "c:@x#", 2, 1⟩ [] [] (by decide) rfl

/-- C9: `__find_all_references` yields the empty reference list whenever the
file fails to parse, no cursor resolves at the position, or the resolved
cursor's kind is outside the four indexed groups, and in every case —
successful queries included — it leaves the symbol store exactly as it
was (the body only runs `SELECT`s). -/
theorem find_all_references_read_only (tunit : Option TUnit)
    (cursor : Option Cursor) (db : SymbolDatabase) :
    (find_all_references tunit cursor db).2 = db ∧
    (tunit = none → (find_all_references tunit cursor db).1 = []) ∧
    (cursor = none → (find_all_references tunit cursor db).1 = []) ∧
    (∀ c, cursor = some c → symbol_type_of c.kind = none →
      (find_all_references tunit cursor db).1 = []) := by
  cases tunit with
  | none =>
    exact ⟨rfl, fun _ => rfl, fun _ => rfl, fun c _ _ => rfl⟩
  | some tu =>
    cases cursor with
    | none =>
      refine ⟨rfl, ?_, ?_, ?_⟩
      · intro h
        cases h
      · intro _
        rfl
      · intro c hc
        cases hc
    | some c =>
      refine ⟨?_, ?_, ?_, ?_⟩
      · cases hk : c.kind <;> simp [find_all_references, hk]
      · intro h
        cases h
      · intro h
        cases h
      · intro c' hc' hnone
        cases hc'
        cases hk : c.kind <;> rw [hk] at hnone <;>
          simp only [symbol_type_of, reduceCtorEq] at hnone <;>
          simp [find_all_references, hk]

/-- Witness for C9: a populated store, a parsed unit, and a cursor of an
unindexed kind: the result is empty and the store state is returned
unchanged. -/
theorem find_all_references_read_only_witness :
    (find_all_references (some ⟨"a.cpp", []⟩)
        (some ⟨"c:@F@f#", none, ASTNodeId.otherId⟩)
        ⟨[⟨"a.cpp", "c:@F@f#", 1, 5, 1⟩], 0⟩).2
      = ⟨[⟨"a.cpp", "c:@F@f#", 1, 5, 1⟩], 0⟩ ∧
    (find_all_references (some ⟨"a.cpp", []⟩)
        (some ⟨"c:@F@f#", none, ASTNodeId.otherId⟩)
        ⟨[⟨"a.cpp", "c:@F@f#", 1, 5, 1⟩], 0⟩).1
      = [] := by
  have h := find_all_references_read_only (some ⟨"a.cpp", []⟩)
    (some ⟨"c:@F@f#", none, ASTNodeId.otherId⟩)
    ⟨[⟨"a.cpp", "c:@F@f#", 1, 5, 1⟩], 0⟩
  exact ⟨h.1, h.2.2.2 ⟨"c:@F@f#", none, ASTNodeId.otherId⟩ rfl rfl⟩
